import Mathlib

/-!
Shallow embedding of the `migration` repository's identity-reconciliation and
consent-backfill engine.

Sources embedded:
* `core/models.py` — the four entity types (`Subscriber`, `SubscriberSMS`,
  `Client`, `User`).  None of the fields carry a database uniqueness
  constraint (the models declare plain indexes only).
* `core/management/commands/migrate_subscribers.py` — the Identity Builder
  (`Command.handle`, `_migrate_from_subscribers`, `_migrate_from_subscribersms`,
  `_flush_users`, `_write_non_unique_phones_csv`, `_append_conflict`,
  `_get_model_by_name`).
* `core/management/commands/update_gdpr_from_subscribers.py` — the Consent
  Backfill (`Command.handle`, `_get_model_by_name`).

Conventions: timestamps are `Option Nat` (a Django `DateTimeField` that may be
absent); nullable text columns are `Option String`; Python truthiness of such a
column (`if c.phone:`) is `truthy` below (None and the empty string are falsy).
Python dictionaries built by comprehensions keep the *last* value written for a
key, so dict lookups are modelled as `getLast?` over a filter.  Primary keys
are assigned by the database and are never read back by the builder, so users
constructed by the builder carry id 0.
-/

namespace Migration

/-- Python truthiness of an optional string column: `None` and `""` are falsy. -/
def truthy : Option String → Bool
  | none => false
  | some s => !s.isEmpty

/-- `Subscriber` row (email-keyed legacy source): id, email (required),
gdpr_consent, create_date. -/
structure Subscriber where
  id : Nat
  email : String
  gdpr_consent : Bool
  create_date : Option Nat
deriving DecidableEq, Repr

/-- `SubscriberSMS` row (phone-keyed legacy source). -/
structure SubscriberSMS where
  id : Nat
  phone : String
  gdpr_consent : Bool
  create_date : Option Nat
deriving DecidableEq, Repr

/-- `Client` row (customer registry): email and phone both nullable. -/
structure Client where
  id : Nat
  email : Option String
  phone : Option String
  create_date : Option Nat
deriving DecidableEq, Repr

/-- `User` row (the unified Identity): email and phone nullable, consent,
create_date. -/
structure User where
  id : Nat
  email : Option String
  phone : Option String
  gdpr_consent : Bool
  create_date : Option Nat
deriving DecidableEq, Repr

/-! ## Derived lookups (migrate_subscribers.py, handle preload)

`user_by_email = {u.email: u for u in User.objects...}` — a dict keyed by the
(possibly null) email, later rows overwriting earlier ones, so a lookup
returns the last matching row.  `user_by_phone` is a defaultdict of lists,
populated only for truthy phones. -/

/-- `user_by_email.get(k)`: last user whose email equals the key. -/
def emailLookup (cache : List User) (k : Option String) : Option User :=
  (cache.filter (fun u => u.email == k)).getLast?

/-- `user_by_phone.get(k, [])`: users with a truthy phone equal to the key
(the dict is only populated `if u.phone:`). -/
def phoneLookup (cache : List User) (k : Option String) : List User :=
  cache.filter (fun u => truthy u.phone && u.phone == k)

/-- `client_by_email.get(e)`: last client whose email equals the key. -/
def clientByEmail (clients : List Client) (e : String) : Option Client :=
  (clients.filter (fun c => c.email == some e)).getLast?

/-- `client_by_phone.get(p, [])`: clients with a truthy phone equal to `p`
(populated `if c.phone:`). -/
def clientsByPhone (clients : List Client) (p : String) : List Client :=
  clients.filter (fun c => truthy c.phone && c.phone == some p)

/-- `phone_counts[p]`: number of clients with truthy phone `p`. -/
def phoneCount (clients : List Client) (p : String) : Nat :=
  (clientsByPhone clients p).length

/-- `p in non_unique_client_phones` for a string `p` (phones appearing on at
least two clients). -/
def nonUniquePhone (clients : List Client) (p : String) : Bool :=
  2 ≤ phoneCount clients p

/-- Membership of a nullable phone in the non-unique set (None is never a
member of the set of strings). -/
def nonUniqueO (clients : List Client) : Option String → Bool
  | none => false
  | some p => nonUniquePhone clients p

/-! ## Report rows -/

/-- Row of `non_unique_client_phones.csv`: `{client_id, phone, email}`. -/
structure NURow where
  client_id : Nat
  phone : Option String
  email : Option String
deriving DecidableEq, Repr

/-- Row of `subscriber_conflicts.csv`. -/
structure SubCRow where
  subscriber_id : Nat
  subscriber_email : String
  client_phone : Option String
  client_email : Option String
deriving DecidableEq, Repr

/-- Row of `subscribersms_conflicts.csv`. -/
structure SmsCRow where
  subscribersms_id : Nat
  subscribersms_phone : String
  client_phone : Option String
  client_email : Option String
deriving DecidableEq, Repr

/-! ## Builder state

`users` is the User table; `ecache`/`pcache` are the in-memory
`user_by_email` / `user_by_phone` snapshots (a list of the rows the dict was
built from plus rows appended by `_flush_users`); `buffer` is the pending
bulk-insert buffer.  Report rows emitted during the run are accumulated in
order in the three `…Rows` lists; the CSV file semantics are applied
separately (see `Files` below). -/

structure BState where
  users : List User
  ecache : List User
  pcache : List User
  buffer : List User
  nuRows : List NURow
  subRows : List SubCRow
  smsRows : List SmsCRow
deriving DecidableEq, Repr

/-- `_flush_users`: re-filter the buffer against the caches (drop a candidate
whose truthy email is already a key of `user_by_email`, or whose truthy phone
already has claimants in `user_by_phone`), bulk-insert the rest — the models
declare no uniqueness constraints, so `bulk_create(..., ignore_conflicts=True)`
inserts every row — then update both caches with the created rows
(`user_by_email[u.email] = u` only `if u.email:`, `user_by_phone[u.phone]`
only `if u.phone:`) and clear the buffer. -/
def flush (st : BState) : BState :=
  if st.buffer.isEmpty then st
  else
    let toInsert := st.buffer.filter (fun u =>
      !(truthy u.email && (emailLookup st.ecache u.email).isSome) &&
      !(truthy u.phone && !(phoneLookup st.pcache u.phone).isEmpty))
    { st with
      users := st.users ++ toInsert
      ecache := st.ecache ++ toInsert.filter (fun u => truthy u.email)
      pcache := st.pcache ++ toInsert.filter (fun u => truthy u.phone)
      buffer := [] }

/-- Append a candidate to the buffer and flush once 1000 candidates are
pending (the `if len(buffer) >= 1000` check at the end of each loop body). -/
def pushFlush (st : BState) (u : User) : BState :=
  if 1000 ≤ (st.buffer ++ [u]).length then flush { st with buffer := st.buffer ++ [u] }
  else { st with buffer := st.buffer ++ [u] }

/-- One iteration of `_migrate_from_subscribers` (Pass A, email-first). -/
def stepA (clients : List Client) (now : Nat) (st : BState) (sub : Subscriber) :
    BState :=
  if (emailLookup st.ecache (some sub.email)).isSome then st
  else
    match clientByEmail clients sub.email with
    | some client =>
      if truthy client.phone && nonUniqueO clients client.phone then
        { st with nuRows := st.nuRows ++ [⟨client.id, client.phone, client.email⟩] }
      else if ((phoneLookup st.pcache client.phone).filter
          (fun uu => uu.email != client.email)) ≠ [] then
        { st with subRows := st.subRows ++
            [⟨sub.id, sub.email, client.phone, client.email⟩] }
      else
        pushFlush st
          { id := 0, email := client.email, phone := client.phone,
            gdpr_consent := sub.gdpr_consent, create_date := some now }
    | none =>
      pushFlush st
        { id := 0, email := some sub.email, phone := none,
          gdpr_consent := sub.gdpr_consent, create_date := some now }

/-- One iteration of `_migrate_from_subscribersms` (Pass B, phone-first). -/
def stepB (clients : List Client) (now : Nat) (st : BState) (sms : SubscriberSMS) :
    BState :=
  if phoneLookup st.pcache (some sms.phone) ≠ [] then st
  else
    match clientsByPhone clients sms.phone with
    | [] =>
      pushFlush st
        { id := 0, email := none, phone := some sms.phone,
          gdpr_consent := sms.gdpr_consent, create_date := some now }
    | client :: rest =>
      if nonUniquePhone clients sms.phone then
        { st with nuRows := st.nuRows ++
            (client :: rest).map (fun c => ⟨c.id, c.phone, c.email⟩) }
      else
        match emailLookup st.ecache client.email with
        | some u =>
          if u.phone != client.phone then
            { st with smsRows := st.smsRows ++
                [⟨sms.id, sms.phone, client.phone, client.email⟩] }
          else
            pushFlush st
              { id := 0, email := client.email, phone := client.phone,
                gdpr_consent := sms.gdpr_consent, create_date := some now }
        | none =>
          pushFlush st
            { id := 0, email := client.email, phone := client.phone,
              gdpr_consent := sms.gdpr_consent, create_date := some now }

/-- Rows written by `_write_non_unique_phones_csv`: every client whose phone is
in the non-unique set (no truthiness guard in the comprehension; a null phone
is simply never a member of the set of strings). -/
def snapRows (clients : List Client) : List NURow :=
  (clients.filter (fun c => nonUniqueO clients c.phone)).map
    (fun c => ⟨c.id, c.phone, c.email⟩)

/-- The initial in-memory state of `handle`: both caches are built from the
full User table. -/
def initBState (users0 : List User) : BState :=
  { users := users0, ecache := users0, pcache := users0, buffer := [],
    nuRows := [], subRows := [], smsRows := [] }

/-- "Odśwież cache po ewentualnych insertach": rebuild both lookup caches
from the current User table between the two passes. -/
def refreshCaches (st : BState) : BState :=
  { st with ecache := st.users, pcache := st.users }

/-- `Command.handle` of migrate_subscribers.py: preload the caches, write the
non-unique-phones CSV, run Pass A over the subscribers (in id order) with a
final flush, rebuild both caches from the User table, run Pass B over the SMS
subscribers with a final flush. -/
def runBuilder (subs : List Subscriber) (smss : List SubscriberSMS)
    (clients : List Client) (users0 : List User) (now : Nat) : BState :=
  flush (smss.foldl (stepB clients now)
    (refreshCaches (flush (subs.foldl (stepA clients now) (initBState users0)))))

/-! ## Report sinks as files

`_append_conflict` opens the file with mode `"x"` (create, writing a header
line and the row) and falls back to mode `"a"` (append the row, no header) if
the file already exists.  `_write_non_unique_phones_csv` instead opens
`non_unique_client_phones.csv` with mode `"w"`, which truncates the file and
writes a header plus the snapshot rows, discarding any previous content.  A
file is `none` when absent; its content is a list of lines, each either the
header line or a data row. -/

inductive CsvLine (ρ : Type) where
  | header
  | row (r : ρ)
deriving DecidableEq, Repr

/-- The effect of a sequence of `_append_conflict` calls on one sink: the
first call creates the file with a header if it is absent; every call appends
its row. -/
def appendAll {ρ : Type} (f : Option (List (CsvLine ρ))) (rows : List ρ) :
    Option (List (CsvLine ρ)) :=
  match rows with
  | [] => f
  | _ :: _ =>
    match f with
    | none => some (CsvLine.header :: rows.map CsvLine.row)
    | some ls => some (ls ++ rows.map CsvLine.row)

/-- The three report sinks. -/
structure Files where
  nonUnique : Option (List (CsvLine NURow))
  subC : Option (List (CsvLine SubCRow))
  smsC : Option (List (CsvLine SmsCRow))
deriving DecidableEq, Repr

/-- File contents after a builder run: `non_unique_client_phones.csv` is
truncated and rewritten (`open(..., "w")`) with a header and the snapshot
rows before the passes, then the per-record rows are appended to it; the two
conflict sinks only ever see `_append_conflict`. -/
def filesAfter (files0 : Files) (clients : List Client) (st : BState) : Files :=
  { nonUnique := some (CsvLine.header ::
      (snapRows clients ++ st.nuRows).map CsvLine.row)
    subC := appendAll files0.subC st.subRows
    smsC := appendAll files0.smsC st.smsRows }

/-! ## Model resolution (`_get_model_by_name`)

The Django app registry is modelled as a list of registered models, each a
(app label, class name) pair, plus a readiness flag.  `apps.get_model` is a
lookup of a (label, name) pair; the scan branch filters all registered models
by class name. -/

structure RegModel where
  appLabel : String
  name : String
deriving DecidableEq, Repr

structure Registry where
  ready : Bool
  installed : List RegModel
deriving DecidableEq, Repr

/-- `apps.get_model(app_label, model_name)` as used by the command. -/
def appsGetModel (reg : Registry) (label modelName : String) : Option RegModel :=
  reg.installed.find? (fun m => m.appLabel == label && m.name == modelName)

/-- `_get_model_by_name`: raise if the registry is not ready; if the
`GDPR_MODELS_APP_LABEL` setting is present try that app first (raising if the
model is not there); otherwise scan all registered models for a unique class
name match, raising on zero or on more than one match. -/
def getModelByName (reg : Registry) (appLabelSetting : Option String)
    (modelName : String) : Except String RegModel :=
  if !reg.ready then
    .error "Apps registry is not ready; call after django.setup() / inside handle()."
  else
    match appLabelSetting with
    | some label =>
      match appsGetModel reg label modelName with
      | some m => .ok m
      | none => .error ("Model not found in app; check GDPR_MODELS_APP_LABEL: "
          ++ modelName)
    | none =>
      match reg.installed.filter (fun m => m.name == modelName) with
      | [] => .error ("Model not found in any installed app: " ++ modelName)
      | [m] => .ok m
      | _ :: _ :: _ =>
        .error ("Ambiguous model name; set GDPR_MODELS_APP_LABEL: " ++ modelName)

/-- `_resolve_models`: resolve all four logical names, failing on the first
error. -/
def resolveModels (reg : Registry) (appLabelSetting : Option String) :
    Except String (RegModel × RegModel × RegModel × RegModel) := do
  let s ← getModelByName reg appLabelSetting "Subscriber"
  let sms ← getModelByName reg appLabelSetting "SubscriberSMS"
  let c ← getModelByName reg appLabelSetting "Client"
  let u ← getModelByName reg appLabelSetting "User"
  pure (s, sms, c, u)

/-- `Command.handle` with its model-resolution preamble: resolution happens
first, and an error aborts the run before any state or file is touched. -/
def handleBuilder (reg : Registry) (appLabelSetting : Option String)
    (subs : List Subscriber) (smss : List SubscriberSMS) (clients : List Client)
    (users0 : List User) (files0 : Files) (now : Nat) :
    Except String (BState × Files) :=
  (resolveModels reg appLabelSetting).map (fun _ =>
    let st := runBuilder subs smss clients users0 now
    (st, filesAfter files0 clients st))

/-! ## Consent Backfill (update_gdpr_from_subscribers.py)

The command materializes *two independent in-memory copies* of the User
table: `user_by_email = {u.email: u ... if u.email}` and
`users_with_phone = {u.phone: u ... if u.phone}` come from two separate
queries, so the email-keyed object and the phone-keyed object for the same
row are distinct, and mutating one does not affect the other.  A dict keeps
the last value written to a key, so each dict holds, per truthy key value,
the last row carrying it. -/

/-- Keep, for every key value, only the last list element carrying it
(Python dict comprehension semantics). -/
def dedupKeepLast (key : User → Option String) : List User → List User
  | [] => []
  | u :: rest =>
    if rest.any (fun v => key v == key u) then dedupKeepLast key rest
    else u :: dedupKeepLast key rest

/-- The `user_by_email` dict of the backfill: one entry per truthy email. -/
def emailDict (users : List User) : List User :=
  dedupKeepLast (fun u => u.email) (users.filter (fun u => truthy u.email))

/-- The `users_with_phone` dict of the backfill: one entry per truthy phone. -/
def phoneDict (users : List User) : List User :=
  dedupKeepLast (fun u => u.phone) (users.filter (fun u => truthy u.phone))

/-- In-place mutation `entry.gdpr_consent = c` of the dict entry keyed by
email `e`. -/
def setConsentE (l : List User) (e : Option String) (c : Bool) : List User :=
  l.map (fun u => if u.email == e then { u with gdpr_consent := c } else u)

/-- In-place mutation of the dict entry keyed by phone `p`. -/
def setConsentP (l : List User) (p : Option String) (c : Bool) : List User :=
  l.map (fun u => if u.phone == p then { u with gdpr_consent := c } else u)

/-- Backfill state: the two mutable dicts plus, per rule, the ids appended to
the `updates` / `unique_updates` lists (`updates.append(u)` records a
reference; only the id and which copy it refers to are observable at
`bulk_update` time, since the value written is the object's final consent). -/
structure BFState where
  edict : List User
  pdict : List User
  log1 : List Nat
  log2 : List Nat
  log3 : List Nat
deriving DecidableEq, Repr

/-- `user_by_email.get(e)` on the deduplicated dict (keys are unique, so the
first match is the entry). -/
def bfGetE (l : List User) (e : String) : Option User :=
  l.find? (fun u => u.email == some e)

/-- `users_with_phone.get(p)` on the deduplicated dict. -/
def bfGetP (l : List User) (p : String) : Option User :=
  l.find? (fun u => u.phone == some p)

/-- The guard `s.create_date and u.create_date and s.create_date >
u.create_date`: true only when both timestamps are present and the left one
is strictly newer; a missing timestamp on either side is never "newer". -/
def strictlyNewer (x y : Option Nat) : Bool :=
  match x, y with
  | some a, some b => decide (b < a)
  | _, _ => false

/-- Rule 1 (email match): if a user carries the subscriber's email and the
subscriber's timestamp is strictly newer and the consents differ, mutate the
email-dict entry and record the update. -/
def bfStep1 (st : BFState) (s : Subscriber) : BFState :=
  match bfGetE st.edict s.email with
  | none => st
  | some u =>
    if strictlyNewer s.create_date u.create_date then
      if u.gdpr_consent != s.gdpr_consent then
        { st with edict := setConsentE st.edict (some s.email) s.gdpr_consent,
                  log1 := st.log1 ++ [u.id] }
      else st
    else st

/-- Rule 2 (phone match), the analogue on the phone-keyed copies. -/
def bfStep2 (st : BFState) (sm : SubscriberSMS) : BFState :=
  match bfGetP st.pdict sm.phone with
  | none => st
  | some u =>
    if strictlyNewer sm.create_date u.create_date then
      if u.gdpr_consent != sm.gdpr_consent then
        { st with pdict := setConsentP st.pdict (some sm.phone) sm.gdpr_consent,
                  log2 := st.log2 ++ [u.id] }
      else st
    else st

/-- Python comparison `a > b` on two optional timestamps: defined when both
are present, a `TypeError` (modelled as `none`) otherwise. -/
def pyGt : Option Nat → Option Nat → Option Bool
  | some a, some b => some (decide (b < a))
  | _, _ => none

/-- The merge-case sort key `t[1] or u.create_date`: the record's timestamp,
falling back to the identity's own `create_date` when it is missing
(a datetime is always truthy, `None` is falsy). -/
def keyOf (cd : Option Nat) (u : User) : Option Nat :=
  cd.orElse (fun _ => u.create_date)

/-- `max([(s.gdpr_consent, s.create_date, "sub"), (sm.gdpr_consent,
sm.create_date, "sms")], key=lambda t: t[1] or u.create_date)[0]`: Python's
`max` keeps the first element on ties, so the SMS tuple is chosen only when
its key is strictly greater; `none` models the `TypeError` raised when a key
is `None` on both sides of the comparison. -/
def mergePick (s : Subscriber) (sm : SubscriberSMS) (u : User) : Option Bool :=
  match pyGt (keyOf sm.create_date u) (keyOf s.create_date u) with
  | some true => some sm.gdpr_consent
  | some false => some s.gdpr_consent
  | none => none

/-- The backfill's `client_by_email.get(k)` (keys may include `None`). -/
def clientLookupO (clients : List Client) (k : Option String) : Option Client :=
  (clients.filter (fun c => c.email == k)).getLast?

/-- Rule 3 (merge case), evaluated per candidate `u` drawn from the email
dict: requires truthy email and phone, a client linking exactly that pair,
and a first matching subscriber and SMS record; stages whichever consent
`mergePick` selects when it differs from the candidate's current consent.
The candidates are the email-dict values after rules 1–2; since each has a
distinct email and the merge mutates only its own entry, the snapshot value
passed in is the entry's current value. -/
def bfStep3 (subs : List Subscriber) (smss : List SubscriberSMS)
    (clients : List Client) (st : BFState) (u : User) : Except String BFState :=
  if !(truthy u.email && truthy u.phone) then .ok st
  else
    match clientLookupO clients u.email with
    | none => .ok st
    | some c =>
      if !(c.phone == u.phone) then .ok st
      else
        match subs.find? (fun x => u.email == some x.email),
              smss.find? (fun x => u.phone == some x.phone) with
        | some s, some sm =>
          match mergePick s sm u with
          | none => .error "TypeError: cannot compare None timestamps in max()"
          | some consent =>
            if consent != u.gdpr_consent then
              .ok { st with edict := setConsentE st.edict u.email consent,
                            log3 := st.log3 ++ [u.id] }
            else .ok st
        | _, _ => .ok st

/-- The consent value `bulk_update` writes for row id `i`, if any.
`final_updates` is filled in the order: first occurrence per id of the
rule-1/rule-2 `updates` list (rule 1 runs entirely before rule 2), then every
merge-case append, later entries overwriting earlier ones; the value written
is the referenced copy's final consent.  Hence: an id staged by the merge
rule or by rule 1 resolves to its email-dict copy, an id staged only by
rule 2 to its phone-dict copy. -/
def appliedConsent (st : BFState) (i : Nat) : Option Bool :=
  if i ∈ st.log3 ∨ i ∈ st.log1 then
    (st.edict.find? (fun u => u.id == i)).map (fun u => u.gdpr_consent)
  else if i ∈ st.log2 then
    (st.pdict.find? (fun u => u.id == i)).map (fun u => u.gdpr_consent)
  else none

/-- Initial backfill state: the two dict snapshots, no updates staged. -/
def bfInit (users : List User) : BFState :=
  { edict := emailDict users, pdict := phoneDict users,
    log1 := [], log2 := [], log3 := [] }

/-- State after rules 1 and 2 (rule 1 runs entirely before rule 2). -/
def bfPhases12 (users : List User) (subs : List Subscriber)
    (smss : List SubscriberSMS) : BFState :=
  smss.foldl bfStep2 (subs.foldl bfStep1 (bfInit users))

/-- Full staging computation: rules 1, 2, then the merge rule over the
email-dict candidates (`candidates = list(user_by_email.values())`, the
snapshot after rules 1–2). -/
def bfRun (users : List User) (subs : List Subscriber)
    (smss : List SubscriberSMS) (clients : List Client) :
    Except String BFState :=
  (bfPhases12 users subs smss).edict.foldlM (bfStep3 subs smss clients)
    (bfPhases12 users subs smss)

/-- `bulk_update(final_updates.values(), ["gdpr_consent"])`: write the staged
consents back, touching only `gdpr_consent`. -/
def applyUpdates (users : List User) (st : BFState) : List User :=
  users.map (fun u =>
    match appliedConsent st u.id with
    | some c => { u with gdpr_consent := c }
    | none => u)

/-- `Command.handle` of update_gdpr_from_subscribers.py: build the two
dicts, run rule 1 over all subscribers, rule 2 over all SMS records, the
merge rule over the email-dict candidates, then apply the staged consents
(restricted to `gdpr_consent`) to the table. -/
def runBackfill (users : List User) (subs : List Subscriber)
    (smss : List SubscriberSMS) (clients : List Client) :
    Except String (List User) :=
  (bfRun users subs smss clients).map (applyUpdates users)

/-- The user table only grows: the run never deletes or mutates a row. -/
def UsersMono (st st' : BState) : Prop := ∃ d, st'.users = st.users ++ d

/-- Invariant for C9: every row is either a pre-existing one or carries the
run's wall-clock timestamp; the same holds for every buffered candidate. -/
def StampInv (now : Nat) (users0 : List User) (st : BState) : Prop :=
  (∀ u ∈ st.users, u ∈ users0 ∨ u.create_date = some now) ∧
  (∀ u ∈ st.buffer, u.create_date = some now)

/-! ## Idempotence of the builder (C4)

A subscriber (resp. SMS record) is *covered* by a user table when
re-evaluating it against that table cannot reach a create branch: its email
is already claimed, or its client routes it to the non-unique-phone report,
or to the conflict report.  We show each pass leaves every processed record
covered by the final table, and that a pass over a covered list from a state
whose caches equal the table changes nothing but the report rows. -/

def EmailClaimed (U : List User) (k : Option String) : Prop :=
  ∃ u ∈ U, u.email = k

def PhoneClaimed (U : List User) (p : String) : Prop :=
  ∃ u ∈ U, truthy u.phone = true ∧ u.phone = some p

/-- Both caches only hold rows of the user table. -/
def CacheInv (st : BState) : Prop :=
  (∀ u ∈ st.ecache, u ∈ st.users) ∧ (∀ u ∈ st.pcache, u ∈ st.users)

def CoveredA (clients : List Client) (U : List User) (s : Subscriber) : Prop :=
  EmailClaimed U (some s.email) ∨
  ∃ c, clientByEmail clients s.email = some c ∧
    ((truthy c.phone && nonUniqueO clients c.phone) = true ∨
     ∃ u ∈ U, truthy u.phone = true ∧ u.phone = c.phone ∧ u.email ≠ c.email)

def CoveredB (clients : List Client) (U : List User) (m : SubscriberSMS) : Prop :=
  PhoneClaimed U m.phone ∨
  ∃ c cs, clientsByPhone clients m.phone = c :: cs ∧
    (nonUniquePhone clients m.phone = true ∨ ∃ u ∈ U, u.email = c.email)

/-- What a buffered Pass-A candidate for subscriber `s` looks like. -/
def BJustA (clients : List Client) (s : Subscriber) (b : User) : Prop :=
  b.email = some s.email ∧
  (b.phone = none ∨
   ∃ c, clientByEmail clients s.email = some c ∧ b.email = c.email ∧
     b.phone = c.phone)

/-- What a buffered Pass-B candidate for SMS record `m` looks like. -/
def BJustB (clients : List Client) (m : SubscriberSMS) (b : User) : Prop :=
  (b.email = none ∧ b.phone = some m.phone) ∨
  ∃ c cs, clientsByPhone clients m.phone = c :: cs ∧ b.email = c.email ∧
    b.phone = c.phone

/-- Covered, allowing the justification to still sit in the buffer. -/
def CoveredAX (clients : List Client) (st : BState) (s : Subscriber) : Prop :=
  CoveredA clients st.users s ∨ ∃ b ∈ st.buffer, BJustA clients s b

def CoveredBX (clients : List Client) (st : BState) (m : SubscriberSMS) : Prop :=
  CoveredB clients st.users m ∨ ∃ b ∈ st.buffer, BJustB clients m b

/-- A step that only emits report rows: table, caches and buffer unchanged. -/
def SameCore (st st' : BState) : Prop :=
  st'.users = st.users ∧ st'.ecache = st.ecache ∧ st'.pcache = st.pcache ∧
  st'.buffer = st.buffer

/-- State predicate for the second run: the table never moved away from `U1`,
the caches still are `U1`, and nothing is buffered. -/
def Frozen (U1 : List User) (st : BState) : Prop :=
  st.users = U1 ∧ st.ecache = U1 ∧ st.pcache = U1 ∧ st.buffer = []

/-! ## Backfill staging invariants (for C3) -/

/-- A dict copy is a consent-mutated image of some table row: all fields but
the consent agree with a row of the table. -/
def RowShadow (users : List User) (v : User) : Prop :=
  ∃ w ∈ users, w.id = v.id ∧ w.email = v.email ∧ w.phone = v.phone ∧
    w.create_date = v.create_date

def DictsInv (users : List User) (st : BFState) : Prop :=
  (∀ v ∈ st.edict, RowShadow users v) ∧ (∀ v ∈ st.pdict, RowShadow users v)

/-- Every id staged by rule 1 (resp. rule 2) has a matching legacy record
strictly newer than the row's own timestamp. -/
def LogsInv (users : List User) (subs : List Subscriber)
    (smss : List SubscriberSMS) (st : BFState) : Prop :=
  (∀ i ∈ st.log1, ∃ s ∈ subs, ∃ w ∈ users, w.id = i ∧ w.email = some s.email ∧
    strictlyNewer s.create_date w.create_date = true) ∧
  (∀ i ∈ st.log2, ∃ m ∈ smss, ∃ w ∈ users, w.id = i ∧ w.phone = some m.phone ∧
    strictlyNewer m.create_date w.create_date = true)

/-! ## Characterizations of the lookup structures -/

theorem getLastQ_isSome_iff {α : Type} (l : List α) :
    l.getLast?.isSome ↔ l ≠ [] := by
  cases l with
  | nil => simp
  | cons a t => simp [List.getLast?_isSome]

theorem getLastQ_mem {α : Type} {l : List α} {a : α} (h : l.getLast? = some a) :
    a ∈ l := by
  cases l with
  | nil => simp at h
  | cons b t =>
    have : a = (b :: t).getLast (by simp) := by
      rw [List.getLast?_eq_getLast (b :: t) (by simp)] at h
      exact (Option.some_inj.mp h).symm
    rw [this]
    exact List.getLast_mem _

theorem emailLookup_isSome_iff (U : List User) (k : Option String) :
    (emailLookup U k).isSome ↔ ∃ u ∈ U, u.email = k := by
  unfold emailLookup
  rw [getLastQ_isSome_iff]
  constructor
  · intro h
    obtain ⟨u, hu⟩ := List.exists_mem_of_ne_nil _ h
    rw [List.mem_filter] at hu
    exact ⟨u, hu.1, by simpa using hu.2⟩
  · rintro ⟨u, hu, he⟩ hnil
    have : u ∈ U.filter (fun u => u.email == k) :=
      List.mem_filter.mpr ⟨hu, by simpa using he⟩
    rw [hnil] at this
    simp at this

theorem emailLookup_eq_some {U : List User} {k : Option String} {u : User}
    (h : emailLookup U k = some u) : u ∈ U ∧ u.email = k := by
  unfold emailLookup at h
  have hm := getLastQ_mem h
  rw [List.mem_filter] at hm
  exact ⟨hm.1, by simpa using hm.2⟩

theorem phoneLookup_mem_iff (U : List User) (k : Option String) (u : User) :
    u ∈ phoneLookup U k ↔ u ∈ U ∧ truthy u.phone = true ∧ u.phone = k := by
  unfold phoneLookup
  simp [List.mem_filter]

theorem phoneLookup_ne_nil_iff (U : List User) (k : Option String) :
    phoneLookup U k ≠ [] ↔ ∃ u ∈ U, truthy u.phone = true ∧ u.phone = k := by
  constructor
  · intro h
    obtain ⟨u, hu⟩ := List.exists_mem_of_ne_nil _ h
    rw [phoneLookup_mem_iff] at hu
    exact ⟨u, hu.1, hu.2⟩
  · rintro ⟨u, hu, h⟩ hnil
    have := (phoneLookup_mem_iff U k u).mpr ⟨hu, h⟩
    rw [hnil] at this
    simp at this

theorem clientByEmail_eq_some {clients : List Client} {e : String} {c : Client}
    (h : clientByEmail clients e = some c) : c ∈ clients ∧ c.email = some e := by
  unfold clientByEmail at h
  have hm := getLastQ_mem h
  rw [List.mem_filter] at hm
  exact ⟨hm.1, by simpa using hm.2⟩

theorem clientsByPhone_mem {clients : List Client} {p : String} {c : Client}
    (h : c ∈ clientsByPhone clients p) :
    c ∈ clients ∧ truthy c.phone = true ∧ c.phone = some p := by
  unfold clientsByPhone at h
  rw [List.mem_filter] at h
  refine ⟨h.1, ?_, ?_⟩ <;> have := h.2 <;> simp at this <;> tauto

/-! ## Builder run invariants -/


theorem usersMono_refl (st : BState) : UsersMono st st := ⟨[], by simp⟩

theorem usersMono_trans {a b c : BState} (h₁ : UsersMono a b)
    (h₂ : UsersMono b c) : UsersMono a c := by
  obtain ⟨d₁, h₁⟩ := h₁
  obtain ⟨d₂, h₂⟩ := h₂
  exact ⟨d₁ ++ d₂, by rw [h₂, h₁, List.append_assoc]⟩

theorem flush_usersMono (st : BState) : UsersMono st (flush st) := by
  unfold flush
  split
  · exact usersMono_refl st
  · exact ⟨_, rfl⟩

theorem pushFlush_usersMono (st : BState) (u : User) :
    UsersMono st (pushFlush st u) := by
  unfold pushFlush
  split
  · obtain ⟨d, hd⟩ := flush_usersMono { st with buffer := st.buffer ++ [u] }
    exact ⟨d, hd⟩
  · exact ⟨[], by simp⟩

theorem stepA_usersMono (clients : List Client) (now : Nat) (st : BState)
    (s : Subscriber) : UsersMono st (stepA clients now st s) := by
  unfold stepA
  split
  · exact usersMono_refl st
  · split
    · split
      · exact ⟨[], by simp⟩
      · split
        · exact ⟨[], by simp⟩
        · exact pushFlush_usersMono st _
    · exact pushFlush_usersMono st _

theorem stepB_usersMono (clients : List Client) (now : Nat) (st : BState)
    (sms : SubscriberSMS) : UsersMono st (stepB clients now st sms) := by
  unfold stepB
  split
  · exact usersMono_refl st
  · split
    · exact pushFlush_usersMono st _
    · split
      · exact ⟨[], by simp⟩
      · split
        · split
          · exact ⟨[], by simp⟩
          · exact pushFlush_usersMono st _
        · exact pushFlush_usersMono st _

theorem foldl_usersMono {α : Type} (f : BState → α → BState)
    (hf : ∀ st a, UsersMono st (f st a)) (l : List α) (st : BState) :
    UsersMono st (l.foldl f st) := by
  induction l generalizing st with
  | nil => exact usersMono_refl st
  | cons a t ih => exact usersMono_trans (hf st a) (ih (f st a))


theorem flush_stampInv {now : Nat} {users0 : List User} {st : BState}
    (h : StampInv now users0 st) : StampInv now users0 (flush st) := by
  obtain ⟨hu, hb⟩ := h
  unfold flush
  split
  · exact ⟨hu, hb⟩
  · refine ⟨?_, by simp⟩
    intro u hmem
    rw [List.mem_append] at hmem
    rcases hmem with hmem | hmem
    · exact hu u hmem
    · exact Or.inr (hb u (List.mem_of_mem_filter hmem))

theorem pushFlush_stampInv {now : Nat} {users0 : List User} {st : BState}
    {u : User} (h : StampInv now users0 st) (hc : u.create_date = some now) :
    StampInv now users0 (pushFlush st u) := by
  have hmid : StampInv now users0 { st with buffer := st.buffer ++ [u] } := by
    refine ⟨h.1, ?_⟩
    intro v hv
    rw [List.mem_append] at hv
    rcases hv with hv | hv
    · exact h.2 v hv
    · simp at hv; rw [hv]; exact hc
  unfold pushFlush
  split
  · exact flush_stampInv hmid
  · exact hmid

theorem stepA_stampInv {clients : List Client} {now : Nat} {users0 : List User}
    {st : BState} {s : Subscriber} (h : StampInv now users0 st) :
    StampInv now users0 (stepA clients now st s) := by
  unfold stepA
  split
  · exact h
  · split
    · split
      · exact ⟨h.1, h.2⟩
      · split
        · exact ⟨h.1, h.2⟩
        · exact pushFlush_stampInv h rfl
    · exact pushFlush_stampInv h rfl

theorem stepB_stampInv {clients : List Client} {now : Nat} {users0 : List User}
    {st : BState} {sms : SubscriberSMS} (h : StampInv now users0 st) :
    StampInv now users0 (stepB clients now st sms) := by
  unfold stepB
  split
  · exact h
  · split
    · exact pushFlush_stampInv h rfl
    · split
      · exact ⟨h.1, h.2⟩
      · split
        · split
          · exact ⟨h.1, h.2⟩
          · exact pushFlush_stampInv h rfl
        · exact pushFlush_stampInv h rfl

theorem refresh_stampInv {now : Nat} {users0 : List User} {st : BState}
    (h : StampInv now users0 st) : StampInv now users0 (refreshCaches st) :=
  ⟨h.1, h.2⟩

theorem runBuilder_stampInv (subs : List Subscriber) (smss : List SubscriberSMS)
    (clients : List Client) (users0 : List User) (now : Nat) :
    ∀ u ∈ (runBuilder subs smss clients users0 now).users,
      u ∈ users0 ∨ u.create_date = some now := by
  have h0 : StampInv now users0 (initBState users0) :=
    ⟨fun u hu => Or.inl hu, by simp [initBState]⟩
  have h1 := List.foldlRecOn subs (stepA clients now) _ h0
    (fun st hst s _ => stepA_stampInv hst)
  have h3 := refresh_stampInv (flush_stampInv h1)
  have h4 := List.foldlRecOn smss (stepB clients now) _ h3
    (fun st hst sms _ => stepB_stampInv hst)
  exact (flush_stampInv h4).1


theorem coveredA_append {clients : List Client} {U d : List User}
    {s : Subscriber} (h : CoveredA clients U s) : CoveredA clients (U ++ d) s := by
  rcases h with ⟨u, hu, he⟩ | ⟨c, hc, hrest⟩
  · exact Or.inl ⟨u, List.mem_append_left _ hu, he⟩
  · rcases hrest with hb | ⟨u, hu, h⟩
    · exact Or.inr ⟨c, hc, Or.inl hb⟩
    · exact Or.inr ⟨c, hc, Or.inr ⟨u, List.mem_append_left _ hu, h⟩⟩

theorem coveredB_append {clients : List Client} {U d : List User}
    {m : SubscriberSMS} (h : CoveredB clients U m) :
    CoveredB clients (U ++ d) m := by
  rcases h with ⟨u, hu, ht⟩ | ⟨c, cs, hc, hrest⟩
  · exact Or.inl ⟨u, List.mem_append_left _ hu, ht⟩
  · rcases hrest with hb | ⟨u, hu, h⟩
    · exact Or.inr ⟨c, cs, hc, Or.inl hb⟩
    · exact Or.inr ⟨c, cs, hc, Or.inr ⟨u, List.mem_append_left _ hu, h⟩⟩

theorem coveredA_of_mono {clients : List Client} {st st' : BState}
    {s : Subscriber} (hm : UsersMono st st')
    (h : CoveredA clients st.users s) : CoveredA clients st'.users s := by
  obtain ⟨d, hd⟩ := hm
  rw [hd]
  exact coveredA_append h

theorem coveredB_of_mono {clients : List Client} {st st' : BState}
    {m : SubscriberSMS} (hm : UsersMono st st')
    (h : CoveredB clients st.users m) : CoveredB clients st'.users m := by
  obtain ⟨d, hd⟩ := hm
  rw [hd]
  exact coveredB_append h

/-- At flush time a buffered candidate is either inserted into the table or
dropped because its truthy email is already a cache key, or its truthy phone
already has a claimant. -/
theorem flush_buffer_cases {st : BState} {b : User} (hb : b ∈ st.buffer) :
    b ∈ (flush st).users ∨
    (truthy b.email = true ∧ ∃ w ∈ st.ecache, w.email = b.email) ∨
    (truthy b.phone = true ∧
      ∃ w ∈ st.pcache, truthy w.phone = true ∧ w.phone = b.phone) := by
  have hne : st.buffer.isEmpty = false := by
    cases hbuf : st.buffer with
    | nil => rw [hbuf] at hb; simp at hb
    | cons x t => simp [hbuf]
  by_cases hkeep : (!(truthy b.email && (emailLookup st.ecache b.email).isSome) &&
      !(truthy b.phone && !(phoneLookup st.pcache b.phone).isEmpty)) = true
  · left
    unfold flush
    rw [hne]
    simp only [Bool.false_eq_true, if_false]
    exact List.mem_append_right _ (List.mem_filter.mpr ⟨hb, hkeep⟩)
  · right
    rw [Bool.and_eq_true, not_and_or] at hkeep
    rcases hkeep with hk | hk
    · left
      have hk' : (truthy b.email && (emailLookup st.ecache b.email).isSome) = true := by
        cases h : truthy b.email && (emailLookup st.ecache b.email).isSome
        · exact absurd (by rw [h]; rfl) hk
        · rfl
      rw [Bool.and_eq_true] at hk'
      exact ⟨hk'.1, (emailLookup_isSome_iff st.ecache b.email).mp hk'.2⟩
    · right
      have hk' : (truthy b.phone && !(phoneLookup st.pcache b.phone).isEmpty) = true := by
        cases h : truthy b.phone && !(phoneLookup st.pcache b.phone).isEmpty
        · exact absurd (by rw [h]; rfl) hk
        · rfl
      rw [Bool.and_eq_true] at hk'
      refine ⟨hk'.1, ?_⟩
      have hne2 : phoneLookup st.pcache b.phone ≠ [] := by
        intro hnil
        rw [hnil] at hk'
        simp at hk'
      exact (phoneLookup_ne_nil_iff st.pcache b.phone).mp hne2

/-- Flushing discharges every pending Pass-A justification into coverage by
the table itself. -/
theorem flush_coveredA {clients : List Client} {st : BState} {s : Subscriber}
    (hcache : CacheInv st) (h : CoveredAX clients st s) :
    CoveredA clients (flush st).users s := by
  rcases h with h | ⟨b, hb, hj⟩
  · exact coveredA_of_mono (flush_usersMono st) h
  · obtain ⟨d, hd⟩ := flush_usersMono st
    rcases flush_buffer_cases hb with hins | ⟨_, w, hw, hwe⟩ | ⟨hp1, w, hw, hwp1, hwp⟩
    · exact Or.inl ⟨b, hins, hj.1⟩
    · refine Or.inl ⟨w, ?_, ?_⟩
      · rw [hd]; exact List.mem_append_left _ (hcache.1 w hw)
      · rw [hwe, hj.1]
    · rcases hj.2 with hnone | ⟨c, hc, hbe, hbp⟩
      · rw [hnone] at hp1; simp [truthy] at hp1
      · have hwu : w ∈ (flush st).users := by
          rw [hd]; exact List.mem_append_left _ (hcache.2 w hw)
        by_cases hwe : w.email = c.email
        · exact Or.inl ⟨w, hwu, by rw [hwe, ← hbe, hj.1]⟩
        · exact Or.inr ⟨c, hc, Or.inr ⟨w, hwu, hwp1, by rw [hwp, hbp], hwe⟩⟩

/-- Flushing discharges every pending Pass-B justification (the SMS phone
must be a non-blank string for the created row to be a truthy claimant). -/
theorem flush_coveredB {clients : List Client} {st : BState} {m : SubscriberSMS}
    (hcache : CacheInv st) (hm : m.phone ≠ "") (h : CoveredBX clients st m) :
    CoveredB clients (flush st).users m := by
  have htr : truthy (some m.phone) = true := by
    have hie : m.phone.isEmpty = false := by
      cases hie : m.phone.isEmpty
      · rfl
      · exact absurd ((String.isEmpty_iff m.phone).mp (by rw [hie])) hm
    simp [truthy, hie]
  rcases h with h | ⟨b, hb, hj⟩
  · exact coveredB_of_mono (flush_usersMono st) h
  · obtain ⟨d, hd⟩ := flush_usersMono st
    rcases hj with ⟨hbe, hbp⟩ | ⟨c, cs, hc, hbe, hbp⟩
    · -- candidate from the no-client branch: email None, phone = m.phone
      rcases flush_buffer_cases hb with hins | ⟨he1, _⟩ | ⟨_, w, hw, hwp1, hwp⟩
      · exact Or.inl ⟨b, hins, by rw [hbp]; exact htr, hbp⟩
      · rw [hbe] at he1; simp [truthy] at he1
      · refine Or.inl ⟨w, ?_, hwp1, by rw [hwp, hbp]⟩
        rw [hd]; exact List.mem_append_left _ (hcache.2 w hw)
    · -- candidate built from the unique client for this phone
      have hcp : c.phone = some m.phone :=
        (clientsByPhone_mem (by rw [hc]; exact List.mem_cons_self c cs)).2.2
      rcases flush_buffer_cases hb with hins | ⟨_, w, hw, hwe⟩ | ⟨_, w, hw, hwp1, hwp⟩
      · exact Or.inr ⟨c, cs, hc, Or.inr ⟨b, hins, hbe⟩⟩
      · refine Or.inr ⟨c, cs, hc, Or.inr ⟨w, ?_, by rw [hwe, hbe]⟩⟩
        rw [hd]; exact List.mem_append_left _ (hcache.1 w hw)
      · refine Or.inl ⟨w, ?_, hwp1, by rw [hwp, hbp, hcp]⟩
        rw [hd]; exact List.mem_append_left _ (hcache.2 w hw)

theorem initBState_cacheInv (users0 : List User) : CacheInv (initBState users0) :=
  ⟨fun _ hu => hu, fun _ hu => hu⟩

theorem refresh_cacheInv (st : BState) : CacheInv (refreshCaches st) :=
  ⟨fun _ hu => hu, fun _ hu => hu⟩

theorem flush_cacheInv {st : BState} (h : CacheInv st) : CacheInv (flush st) := by
  unfold flush
  split
  · exact h
  · constructor
    · intro u hu
      rw [List.mem_append] at hu
      rcases hu with hu | hu
      · exact List.mem_append_left _ (h.1 u hu)
      · exact List.mem_append_right _ (List.mem_of_mem_filter hu)
    · intro u hu
      rw [List.mem_append] at hu
      rcases hu with hu | hu
      · exact List.mem_append_left _ (h.2 u hu)
      · exact List.mem_append_right _ (List.mem_of_mem_filter hu)

theorem pushFlush_cacheInv {st : BState} {u : User} (h : CacheInv st) :
    CacheInv (pushFlush st u) := by
  unfold pushFlush
  split
  · exact flush_cacheInv ⟨h.1, h.2⟩
  · exact ⟨h.1, h.2⟩

theorem stepA_cacheInv {clients : List Client} {now : Nat} {st : BState}
    {s : Subscriber} (h : CacheInv st) : CacheInv (stepA clients now st s) := by
  unfold stepA
  split
  · exact h
  · split
    · split
      · exact ⟨h.1, h.2⟩
      · split
        · exact ⟨h.1, h.2⟩
        · exact pushFlush_cacheInv h
    · exact pushFlush_cacheInv h

theorem stepB_cacheInv {clients : List Client} {now : Nat} {st : BState}
    {sms : SubscriberSMS} (h : CacheInv st) : CacheInv (stepB clients now st sms) := by
  unfold stepB
  split
  · exact h
  · split
    · exact pushFlush_cacheInv h
    · split
      · exact ⟨h.1, h.2⟩
      · split
        · split
          · exact ⟨h.1, h.2⟩
          · exact pushFlush_cacheInv h
        · exact pushFlush_cacheInv h

theorem pushFlush_coveredAX {clients : List Client} {st : BState}
    {s : Subscriber} {u : User} (hcache : CacheInv st)
    (h : CoveredA clients st.users s ∨ ∃ b ∈ st.buffer ++ [u], BJustA clients s b) :
    CoveredAX clients (pushFlush st u) s := by
  unfold pushFlush
  split
  · exact Or.inl (flush_coveredA ⟨hcache.1, hcache.2⟩ h)
  · exact h

theorem pushFlush_coveredBX {clients : List Client} {st : BState}
    {m : SubscriberSMS} {u : User} (hcache : CacheInv st) (hm : m.phone ≠ "")
    (h : CoveredB clients st.users m ∨ ∃ b ∈ st.buffer ++ [u], BJustB clients m b) :
    CoveredBX clients (pushFlush st u) m := by
  unfold pushFlush
  split
  · exact Or.inl (flush_coveredB ⟨hcache.1, hcache.2⟩ hm h)
  · exact h

/-- After its own Pass-A step, a subscriber is covered (possibly via a
pending buffered candidate). -/
theorem stepA_self {clients : List Client} {now : Nat} {st : BState}
    {s : Subscriber} (hcache : CacheInv st) :
    CoveredAX clients (stepA clients now st s) s := by
  unfold stepA
  by_cases h1 : (emailLookup st.ecache (some s.email)).isSome = true
  · rw [if_pos h1]
    obtain ⟨u, hu, he⟩ := (emailLookup_isSome_iff _ _).mp h1
    exact Or.inl (Or.inl ⟨u, hcache.1 u hu, he⟩)
  · rw [if_neg h1]
    cases hc : clientByEmail clients s.email with
    | none =>
      exact pushFlush_coveredAX hcache (Or.inr ⟨_,
        List.mem_append_right _ (List.mem_singleton.mpr rfl), rfl, Or.inl rfl⟩)
    | some c =>
      dsimp only
      by_cases h2 : (truthy c.phone && nonUniqueO clients c.phone) = true
      · rw [if_pos h2]
        exact Or.inl (Or.inr ⟨c, hc, Or.inl h2⟩)
      · rw [if_neg h2]
        by_cases h3 : ((phoneLookup st.pcache c.phone).filter
            (fun uu => uu.email != c.email)) ≠ []
        · rw [if_pos h3]
          obtain ⟨uu, huu⟩ := List.exists_mem_of_ne_nil _ h3
          rw [List.mem_filter] at huu
          obtain ⟨hup, hue⟩ := huu
          rw [phoneLookup_mem_iff] at hup
          exact Or.inl (Or.inr ⟨c, hc, Or.inr ⟨uu, hcache.2 uu hup.1, hup.2.1,
            hup.2.2, by simpa using hue⟩⟩)
        · rw [if_neg h3]
          have hce : c.email = some s.email := (clientByEmail_eq_some hc).2
          exact pushFlush_coveredAX hcache (Or.inr ⟨_,
            List.mem_append_right _ (List.mem_singleton.mpr rfl),
            hce, Or.inr ⟨c, hc, hce.symm ▸ rfl, rfl⟩⟩)

/-- After its own Pass-B step, an SMS record is covered. -/
theorem stepB_self {clients : List Client} {now : Nat} {st : BState}
    {m : SubscriberSMS} (hcache : CacheInv st) (hm : m.phone ≠ "") :
    CoveredBX clients (stepB clients now st m) m := by
  unfold stepB
  by_cases h1 : phoneLookup st.pcache (some m.phone) ≠ []
  · rw [if_pos h1]
    obtain ⟨w, hw, hw1, hw2⟩ := (phoneLookup_ne_nil_iff _ _).mp h1
    exact Or.inl (Or.inl ⟨w, hcache.2 w hw, hw1, hw2⟩)
  · rw [if_neg h1]
    cases hcfp : clientsByPhone clients m.phone with
    | nil =>
      exact pushFlush_coveredBX hcache hm (Or.inr ⟨_,
        List.mem_append_right _ (List.mem_singleton.mpr rfl), Or.inl ⟨rfl, rfl⟩⟩)
    | cons c cs =>
      dsimp only
      by_cases h2 : nonUniquePhone clients m.phone = true
      · rw [if_pos h2]
        exact Or.inl (Or.inr ⟨c, cs, hcfp, Or.inl h2⟩)
      · rw [if_neg h2]
        cases hel : emailLookup st.ecache c.email with
        | some u =>
          dsimp only
          by_cases h3 : (u.phone != c.phone) = true
          · rw [if_pos h3]
            have := emailLookup_eq_some hel
            exact Or.inl (Or.inr ⟨c, cs, hcfp,
              Or.inr ⟨u, hcache.1 u this.1, this.2⟩⟩)
          · rw [if_neg h3]
            exact pushFlush_coveredBX hcache hm (Or.inr ⟨_,
              List.mem_append_right _ (List.mem_singleton.mpr rfl),
              Or.inr ⟨c, cs, hcfp, rfl, rfl⟩⟩)
        | none =>
          exact pushFlush_coveredBX hcache hm (Or.inr ⟨_,
            List.mem_append_right _ (List.mem_singleton.mpr rfl),
            Or.inr ⟨c, cs, hcfp, rfl, rfl⟩⟩)

theorem stepA_keepA {clients : List Client} {now : Nat} {st : BState}
    {s : Subscriber} {a : Subscriber} (hcache : CacheInv st)
    (h : CoveredAX clients st s) : CoveredAX clients (stepA clients now st a) s := by
  have hpush : ∀ u : User, CoveredAX clients (pushFlush st u) s := by
    intro u
    apply pushFlush_coveredAX hcache
    rcases h with h | ⟨b, hb, hj⟩
    · exact Or.inl h
    · exact Or.inr ⟨b, List.mem_append_left _ hb, hj⟩
  unfold stepA
  split
  · exact h
  · split
    · split
      · exact h
      · split
        · exact h
        · exact hpush _
    · exact hpush _

theorem stepA_keepB {clients : List Client} {now : Nat} {st : BState}
    {m : SubscriberSMS} {a : Subscriber} (hcache : CacheInv st) (hm : m.phone ≠ "")
    (h : CoveredBX clients st m) : CoveredBX clients (stepA clients now st a) m := by
  have hpush : ∀ u : User, CoveredBX clients (pushFlush st u) m := by
    intro u
    apply pushFlush_coveredBX hcache hm
    rcases h with h | ⟨b, hb, hj⟩
    · exact Or.inl h
    · exact Or.inr ⟨b, List.mem_append_left _ hb, hj⟩
  unfold stepA
  split
  · exact h
  · split
    · split
      · exact h
      · split
        · exact h
        · exact hpush _
    · exact hpush _

theorem stepB_keepB {clients : List Client} {now : Nat} {st : BState}
    {m : SubscriberSMS} {a : SubscriberSMS} (hcache : CacheInv st) (hm : m.phone ≠ "")
    (h : CoveredBX clients st m) : CoveredBX clients (stepB clients now st a) m := by
  have hpush : ∀ u : User, CoveredBX clients (pushFlush st u) m := by
    intro u
    apply pushFlush_coveredBX hcache hm
    rcases h with h | ⟨b, hb, hj⟩
    · exact Or.inl h
    · exact Or.inr ⟨b, List.mem_append_left _ hb, hj⟩
  unfold stepB
  split
  · exact h
  · split
    · exact hpush _
    · split
      · exact h
      · split
        · split
          · exact h
          · exact hpush _
        · exact hpush _

/-- Pass A leaves every processed subscriber covered. -/
theorem passA_covered (clients : List Client) (now : Nat)
    (l : List Subscriber) (st : BState) (hcache : CacheInv st) :
    CacheInv (l.foldl (stepA clients now) st) ∧
    ∀ s ∈ l, CoveredAX clients (l.foldl (stepA clients now) st) s := by
  induction l generalizing st with
  | nil => exact ⟨hcache, by simp⟩
  | cons a t ih =>
    simp only [List.foldl_cons]
    obtain ⟨hc, hall⟩ := ih (stepA clients now st a) (stepA_cacheInv hcache)
    refine ⟨hc, ?_⟩
    intro s hs
    rcases List.mem_cons.mp hs with rfl | hs
    · -- s = a : its own step covers it, the rest of the fold preserves it
      clear hs
      have hself := @stepA_self clients now st s hcache
      have : ∀ (t' : List Subscriber) (st' : BState), CacheInv st' →
          CoveredAX clients st' s →
          CoveredAX clients (t'.foldl (stepA clients now) st') s := by
        intro t'
        induction t' with
        | nil => exact fun st' _ h => h
        | cons b r ihr =>
          intro st' hc' h'
          exact ihr _ (stepA_cacheInv hc') (stepA_keepA hc' h')
      exact this t _ (stepA_cacheInv hcache) hself
    · exact hall s hs

/-- Pass B leaves every processed SMS record covered. -/
theorem passB_covered (clients : List Client) (now : Nat)
    (l : List SubscriberSMS) (st : BState) (hcache : CacheInv st)
    (hp : ∀ m ∈ l, m.phone ≠ "") :
    CacheInv (l.foldl (stepB clients now) st) ∧
    ∀ m ∈ l, CoveredBX clients (l.foldl (stepB clients now) st) m := by
  induction l generalizing st with
  | nil => exact ⟨hcache, by simp⟩
  | cons a t ih =>
    simp only [List.foldl_cons]
    obtain ⟨hc, hall⟩ := ih (stepB clients now st a)
      (stepB_cacheInv hcache) (fun m hm => hp m (List.mem_cons_of_mem a hm))
    refine ⟨hc, ?_⟩
    intro m hm
    rcases List.mem_cons.mp hm with rfl | hm
    · clear hm
      have hmp : m.phone ≠ "" := hp m (List.mem_cons_self m t)
      have hself := @stepB_self clients now st m hcache hmp
      have : ∀ (t' : List SubscriberSMS) (st' : BState), CacheInv st' →
          CoveredBX clients st' m →
          CoveredBX clients (t'.foldl (stepB clients now) st') m := by
        intro t'
        induction t' with
        | nil => exact fun st' _ h => h
        | cons b r ihr =>
          intro st' hc' h'
          exact ihr _ (stepB_cacheInv hc') (stepB_keepB hc' hmp h')
      exact this t _ (stepB_cacheInv hcache) hself
    · exact hall m hm

/-- After a full builder run, every input record is covered by the final
user table. -/
theorem runBuilder_covers (subs : List Subscriber) (smss : List SubscriberSMS)
    (clients : List Client) (users0 : List User) (now : Nat)
    (hsms : ∀ m ∈ smss, m.phone ≠ "") :
    (∀ s ∈ subs,
        CoveredA clients (runBuilder subs smss clients users0 now).users s) ∧
    (∀ m ∈ smss,
        CoveredB clients (runBuilder subs smss clients users0 now).users m) := by
  obtain ⟨hcA, hallA⟩ :=
    passA_covered clients now subs (initBState users0) (initBState_cacheInv users0)
  have hFA : ∀ s ∈ subs,
      CoveredA clients (flush (subs.foldl (stepA clients now) (initBState users0))).users s :=
    fun s hs => flush_coveredA hcA (hallA s hs)
  have hcR : CacheInv (refreshCaches (flush (subs.foldl (stepA clients now) (initBState users0)))) :=
    refresh_cacheInv _
  obtain ⟨hcB, hallB⟩ := passB_covered clients now smss _ hcR hsms
  have hB : ∀ m ∈ smss,
      CoveredB clients (runBuilder subs smss clients users0 now).users m :=
    fun m hm => flush_coveredB hcB (hsms m hm) (hallB m hm)
  have monoB : UsersMono
      (refreshCaches (flush (subs.foldl (stepA clients now) (initBState users0))))
      (runBuilder subs smss clients users0 now) :=
    usersMono_trans
      (foldl_usersMono _ (fun st a => stepB_usersMono clients now st a) smss _)
      (flush_usersMono _)
  exact ⟨fun s hs => coveredA_of_mono monoB (hFA s hs), hB⟩


theorem flush_eq_of_empty {st : BState} (h : st.buffer = []) : flush st = st := by
  unfold flush
  rw [if_pos (by rw [h]; rfl)]

/-- Re-evaluating a covered subscriber against a state whose caches are the
table itself cannot create: it lands in the skip, non-unique or conflict
branch. -/
theorem stepA_sameCore {clients : List Client} {now : Nat} {st : BState}
    {s : Subscriber} (hcov : CoveredA clients st.users s)
    (he : st.ecache = st.users) (hp : st.pcache = st.users) :
    SameCore st (stepA clients now st s) := by
  unfold stepA
  by_cases h1 : (emailLookup st.ecache (some s.email)).isSome = true
  · rw [if_pos h1]; exact ⟨rfl, rfl, rfl, rfl⟩
  · rw [if_neg h1]
    rcases hcov with hclaim | ⟨c, hc, hrest⟩
    · exact absurd (by rw [he, emailLookup_isSome_iff]; exact hclaim) h1
    · rw [hc]
      dsimp only
      by_cases h2 : (truthy c.phone && nonUniqueO clients c.phone) = true
      · rw [if_pos h2]; exact ⟨rfl, rfl, rfl, rfl⟩
      · rw [if_neg h2]
        rcases hrest with hb | ⟨u, hu, hu1, hu2, hu3⟩
        · exact absurd hb h2
        · have hmemf : u ∈ (phoneLookup st.pcache c.phone).filter
              (fun uu => uu.email != c.email) := by
            rw [List.mem_filter]
            exact ⟨(phoneLookup_mem_iff _ _ _).mpr ⟨by rw [hp]; exact hu, hu1, hu2⟩,
              by simpa using hu3⟩
          rw [if_pos (by intro hnil; rw [hnil] at hmemf; simp at hmemf)]
          exact ⟨rfl, rfl, rfl, rfl⟩

/-- Re-evaluating a covered SMS record likewise cannot create. -/
theorem stepB_sameCore {clients : List Client} {now : Nat} {st : BState}
    {m : SubscriberSMS} (hcov : CoveredB clients st.users m)
    (he : st.ecache = st.users) (hp : st.pcache = st.users) (hm : m.phone ≠ "") :
    SameCore st (stepB clients now st m) := by
  unfold stepB
  by_cases h1 : phoneLookup st.pcache (some m.phone) ≠ []
  · rw [if_pos h1]; exact ⟨rfl, rfl, rfl, rfl⟩
  · rw [if_neg h1]
    rcases hcov with hclaim | ⟨c, cs, hcfp, hrest⟩
    · exact absurd (by rw [hp, phoneLookup_ne_nil_iff]; exact hclaim) h1
    · rw [hcfp]
      dsimp only
      by_cases h2 : nonUniquePhone clients m.phone = true
      · rw [if_pos h2]; exact ⟨rfl, rfl, rfl, rfl⟩
      · rw [if_neg h2]
        rcases hrest with hb | ⟨u, hu, hue⟩
        · exact absurd hb h2
        · have hsome : (emailLookup st.ecache c.email).isSome = true := by
            rw [he, emailLookup_isSome_iff]; exact ⟨u, hu, hue⟩
          cases hel : emailLookup st.ecache c.email with
          | none => rw [hel] at hsome; simp at hsome
          | some v =>
            dsimp only
            have hv := emailLookup_eq_some hel
            have hcp : c.phone = some m.phone :=
              (clientsByPhone_mem (by rw [hcfp]; exact List.mem_cons_self c cs)).2.2
            have hvp : (v.phone != c.phone) = true := by
              rw [bne_iff_ne]
              intro heq
              apply h1
              rw [phoneLookup_ne_nil_iff]
              refine ⟨v, by rw [hp, ← he]; exact hv.1, ?_, by rw [heq, hcp]⟩
              rw [heq, hcp]
              have hie : m.phone.isEmpty = false := by
                cases hie : m.phone.isEmpty
                · rfl
                · exact absurd ((String.isEmpty_iff m.phone).mp (by rw [hie])) hm
              simp [truthy, hie]
            rw [if_pos hvp]
            exact ⟨rfl, rfl, rfl, rfl⟩


theorem foldlA_frozen {clients : List Client} {now : Nat} {U1 : List User}
    (l : List Subscriber) (st : BState)
    (hl : ∀ s ∈ l, CoveredA clients U1 s) (h : Frozen U1 st) :
    Frozen U1 (l.foldl (stepA clients now) st) := by
  induction l generalizing st with
  | nil => exact h
  | cons a t ih =>
    simp only [List.foldl_cons]
    obtain ⟨hu, hec, hpc, hbuf⟩ := h
    have hsc := @stepA_sameCore clients now st a
      (by rw [hu]; exact hl a (List.mem_cons_self a t))
      (by rw [hec, hu]) (by rw [hpc, hu])
    exact ih _ (fun s hs => hl s (List.mem_cons_of_mem a hs))
      ⟨by rw [hsc.1, hu], by rw [hsc.2.1, hec], by rw [hsc.2.2.1, hpc],
       by rw [hsc.2.2.2, hbuf]⟩

theorem foldlB_frozen {clients : List Client} {now : Nat} {U1 : List User}
    (l : List SubscriberSMS) (st : BState)
    (hl : ∀ m ∈ l, CoveredB clients U1 m) (hphones : ∀ m ∈ l, m.phone ≠ "")
    (h : Frozen U1 st) : Frozen U1 (l.foldl (stepB clients now) st) := by
  induction l generalizing st with
  | nil => exact h
  | cons a t ih =>
    simp only [List.foldl_cons]
    obtain ⟨hu, hec, hpc, hbuf⟩ := h
    have hsc := @stepB_sameCore clients now st a
      (by rw [hu]; exact hl a (List.mem_cons_self a t))
      (by rw [hec, hu]) (by rw [hpc, hu]) (hphones a (List.mem_cons_self a t))
    exact ih _ (fun m hs => hl m (List.mem_cons_of_mem a hs))
      (fun m hs => hphones m (List.mem_cons_of_mem a hs))
      ⟨by rw [hsc.1, hu], by rw [hsc.2.1, hec], by rw [hsc.2.2.1, hpc],
       by rw [hsc.2.2.2, hbuf]⟩

/-- A builder run over inputs already covered by its starting table creates
no rows at all. -/
theorem runBuilder_noop (subs : List Subscriber) (smss : List SubscriberSMS)
    (clients : List Client) (U1 : List User) (now2 : Nat)
    (hA : ∀ s ∈ subs, CoveredA clients U1 s)
    (hB : ∀ m ∈ smss, CoveredB clients U1 m)
    (hsms : ∀ m ∈ smss, m.phone ≠ "") :
    (runBuilder subs smss clients U1 now2).users = U1 := by
  have h0 : Frozen U1 (initBState U1) := ⟨rfl, rfl, rfl, rfl⟩
  have h1 := @foldlA_frozen clients now2 U1 subs (initBState U1) hA h0
  rw [runBuilder, flush_eq_of_empty h1.2.2.2]
  have h2 : Frozen U1 (refreshCaches (subs.foldl (stepA clients now2) (initBState U1))) :=
    ⟨h1.1, h1.1, h1.1, h1.2.2.2⟩
  have h3 := @foldlB_frozen clients now2 U1 smss _ hB hsms h2
  rw [flush_eq_of_empty h3.2.2.2]
  exact h3.1

theorem appendAll_some {ρ : Type} {f : Option (List (CsvLine ρ))}
    {rs : List (CsvLine ρ)} (rows : List ρ) (hf : f = some rs) :
    ∃ t, appendAll f rows = some (rs ++ t) := by
  cases rows with
  | nil => exact ⟨[], by simp [appendAll, hf]⟩
  | cons r rest => exact ⟨(r :: rest).map CsvLine.row, by simp [appendAll, hf]⟩

/-! ## Claim theorems -/

/-- C1 (code bug): the claim — any two distinct Identities produced by a run
have distinct non-null emails and distinct non-null phones — fails on the
code.  The pre-flush guard in `_flush_users` checks only the caches, which
are updated *after* the batch insert, and `models.py` declares no uniqueness
constraint, so two same-email subscribers buffered in the same batch are both
inserted.  Evaluating the run at such an input yields two distinct Identities
sharing the non-null email "a@x.com". -/
theorem C1_duplicate_email_rows :
    ∃ u1 ∈ (runBuilder [⟨1, "a@x.com", true, some 1⟩, ⟨2, "a@x.com", false, some 2⟩]
        [] [] [] 5).users,
    ∃ u2 ∈ (runBuilder [⟨1, "a@x.com", true, some 1⟩, ⟨2, "a@x.com", false, some 2⟩]
        [] [] [] 5).users,
      u1 ≠ u2 ∧ u1.email = u2.email ∧ u1.email ≠ none := by decide

/-- C2 (counterexample): in the claimed scenario — phone "555" unclaimed,
exactly one client with that (unique) phone, and an existing Identity with
the client's email but a *null* phone — the claim states that no conflict
report row is emitted.  The code emits one (`u_conflict.phone != client.phone`
is true when `u_conflict.phone` is None), while indeed creating no Identity. -/
theorem C2_conflict_row_emitted :
    (runBuilder [] [⟨7, "555", false, some 5⟩]
        [⟨3, some "a@x.com", some "555", some 1⟩]
        [⟨10, some "a@x.com", none, true, some 2⟩] 9).smsRows ≠ [] ∧
    (runBuilder [] [⟨7, "555", false, some 5⟩]
        [⟨3, some "a@x.com", some "555", some 1⟩]
        [⟨10, some "a@x.com", none, true, some 2⟩] 9).users =
      [⟨10, some "a@x.com", none, true, some 2⟩] := by decide

/-- C2 (amended): in the phone-first pass, for a record `m` whose phone is
unclaimed and matched by exactly one client `c` with a unique phone, if the
identity found under `c.email` has a null phone, then a conflict report row
IS emitted (the null phone counts as a competing value, since the check is
`u_conflict.phone != client.phone`) and no new Identity is created for `m`:
the state changes only by the appended `subscribersms_conflicts` row. -/
theorem C2_null_phone_is_conflict (clients : List Client) (now : Nat)
    (st : BState) (m : SubscriberSMS) (c : Client) (u : User)
    (hp : phoneLookup st.pcache (some m.phone) = [])
    (hc : clientsByPhone clients m.phone = [c])
    (hu : emailLookup st.ecache c.email = some u)
    (hnull : u.phone = none) :
    stepB clients now st m =
      { st with smsRows := st.smsRows ++ [⟨m.id, m.phone, c.phone, c.email⟩] } := by
  unfold stepB
  rw [if_neg (by simp [hp])]
  rw [hc]
  dsimp only
  rw [if_neg (by simp [nonUniquePhone, phoneCount, hc])]
  rw [hu]
  dsimp only
  have hcp : c.phone = some m.phone :=
    (clientsByPhone_mem (by rw [hc]; exact List.mem_singleton.mpr rfl)).2.2
  rw [if_pos (by rw [hnull, hcp]; rfl)]

theorem C2_null_phone_is_conflict_witness :
    (phoneLookup (initBState [⟨10, some "a@x.com", none, true, some 2⟩]).pcache
        (some "555") = []) ∧
    (clientsByPhone [⟨3, some "a@x.com", some "555", some 1⟩] "555" =
      [⟨3, some "a@x.com", some "555", some 1⟩]) ∧
    (emailLookup (initBState [⟨10, some "a@x.com", none, true, some 2⟩]).ecache
        (some "a@x.com") = some ⟨10, some "a@x.com", none, true, some 2⟩) ∧
    stepB [⟨3, some "a@x.com", some "555", some 1⟩] 9
        (initBState [⟨10, some "a@x.com", none, true, some 2⟩])
        ⟨7, "555", false, some 5⟩ =
      { initBState [⟨10, some "a@x.com", none, true, some 2⟩] with
          smsRows := [⟨7, "555", some "555", some "a@x.com"⟩] } :=
  ⟨by decide, by decide, by decide,
    C2_null_phone_is_conflict _ 9 _ ⟨7, "555", false, some 5⟩
      ⟨3, some "a@x.com", some "555", some 1⟩
      ⟨10, some "a@x.com", none, true, some 2⟩
      (by decide) (by decide) (by decide) (by decide)⟩

/-- C4: re-running the Identity Builder on the same legacy snapshot, starting
from the Identity table the first run left behind, creates zero additional
rows: the table after the second run equals the table after the first.
Hypothesis: SMS phone values are non-blank strings (`SubscriberSMS.phone`
declares `null=False, blank=False`; a row with an empty-string phone is never
entered into the phone cache and would be re-created on every run). -/
theorem C4_builder_idempotent (subs : List Subscriber) (smss : List SubscriberSMS)
    (clients : List Client) (users0 : List User) (now1 now2 : Nat)
    (hsms : ∀ m ∈ smss, m.phone ≠ "") :
    (runBuilder subs smss clients
        (runBuilder subs smss clients users0 now1).users now2).users =
      (runBuilder subs smss clients users0 now1).users := by
  obtain ⟨hA, hB⟩ := runBuilder_covers subs smss clients users0 now1 hsms
  exact runBuilder_noop subs smss clients _ now2 hA hB hsms

theorem C4_builder_idempotent_witness :
    (∀ m ∈ ([⟨1, "7", true, none⟩] : List SubscriberSMS), m.phone ≠ "") ∧
    (runBuilder [⟨1, "a", true, none⟩] [⟨1, "7", true, none⟩]
        [⟨1, some "a", some "7", none⟩]
        (runBuilder [⟨1, "a", true, none⟩] [⟨1, "7", true, none⟩]
          [⟨1, some "a", some "7", none⟩] [] 5).users 6).users =
      (runBuilder [⟨1, "a", true, none⟩] [⟨1, "7", true, none⟩]
        [⟨1, some "a", some "7", none⟩] [] 5).users :=
  ⟨by decide, C4_builder_idempotent _ _ _ _ 5 6 (by decide)⟩

/-- C6 (counterexample): the claim — every report sink is create-or-append,
so rows present before a run are still present after — fails for
`non_unique_client_phones.csv`: `_write_non_unique_phones_csv` opens it with
mode `"w"` at the start of every `handle`, truncating it.  With empty inputs,
a pre-existing data row is gone after the run. -/
theorem C6_non_unique_sink_truncated :
    CsvLine.row (⟨99, some "p", some "z"⟩ : NURow) ∈
      ([CsvLine.header, CsvLine.row ⟨99, some "p", some "z"⟩] :
        List (CsvLine NURow)) ∧
    (filesAfter
        ⟨some [CsvLine.header, CsvLine.row ⟨99, some "p", some "z"⟩], none, none⟩
        [] (runBuilder [] [] [] [] 0)).nonUnique = some [CsvLine.header] ∧
    CsvLine.row (⟨99, some "p", some "z"⟩ : NURow) ∉
      ([CsvLine.header] : List (CsvLine NURow)) := by decide

/-- C6 (amended): the two conflict sinks (`subscriber_conflicts`,
`subscribersms_conflicts`) use create-with-header-if-absent, else
append-without-header semantics, so their prior rows are preserved as a
prefix of the new content; `non_unique_client_phones` however is truncated
and rewritten at the start of every run, so its final content is independent
of whatever it held before. -/
theorem C6_sink_semantics (subs : List Subscriber) (smss : List SubscriberSMS)
    (clients : List Client) (users0 : List User) (now : Nat)
    (files0 files0' : Files) :
    (∀ rs, files0.subC = some rs → ∃ t,
      (filesAfter files0 clients (runBuilder subs smss clients users0 now)).subC =
        some (rs ++ t)) ∧
    (∀ rs, files0.smsC = some rs → ∃ t,
      (filesAfter files0 clients (runBuilder subs smss clients users0 now)).smsC =
        some (rs ++ t)) ∧
    (filesAfter files0 clients (runBuilder subs smss clients users0 now)).nonUnique =
      (filesAfter files0' clients (runBuilder subs smss clients users0 now)).nonUnique := by
  refine ⟨?_, ?_, rfl⟩
  · intro rs hrs
    exact appendAll_some _ hrs
  · intro rs hrs
    exact appendAll_some _ hrs

theorem C6_sink_semantics_witness :
    (∃ t, (filesAfter ⟨none, some [CsvLine.header], none⟩ []
        (runBuilder [] [] [] [] 0)).subC = some ([CsvLine.header] ++ t)) ∧
    (∃ t, (filesAfter ⟨none, none, some []⟩ []
        (runBuilder [] [] [] [] 0)).smsC = some ([] ++ t)) := by
  constructor
  · exact (C6_sink_semantics [] [] [] [] 0 ⟨none, some [CsvLine.header], none⟩
      ⟨none, none, none⟩).1 [CsvLine.header] rfl
  · exact (C6_sink_semantics [] [] [] [] 0 ⟨none, none, some []⟩
      ⟨none, none, none⟩).2.1 [] rfl

/-- C9: every Identity created by the builder — in both passes and in both
the with-client and without-client branches — gets `create_date =
timezone.now()`, the wall-clock time of the run, never a copied legacy
timestamp; consequently its creation time exceeds every legacy timestamp
that predates the run. -/
theorem C9_created_at_run_time (subs : List Subscriber) (smss : List SubscriberSMS)
    (clients : List Client) (users0 : List User) (now : Nat) (u : User)
    (hu : u ∈ (runBuilder subs smss clients users0 now).users)
    (hnew : u ∉ users0) :
    u.create_date = some now ∧
    ∀ t : Nat, t < now → ∃ d, u.create_date = some d ∧ t < d := by
  rcases runBuilder_stampInv subs smss clients users0 now u hu with h | h
  · exact absurd h hnew
  · exact ⟨h, fun t ht => ⟨now, h, ht⟩⟩

theorem C9_created_at_run_time_witness :
    ((⟨0, some "a", none, true, some 5⟩ : User) ∈
      (runBuilder [⟨1, "a", true, some 1⟩] [] [] [] 5).users) ∧
    ((⟨0, some "a", none, true, some 5⟩ : User) ∉ ([] : List User)) ∧
    ((⟨0, some "a", none, true, some 5⟩ : User).create_date = some 5 ∧
      ∀ t : Nat, t < 5 → ∃ d,
        (⟨0, some "a", none, true, some 5⟩ : User).create_date = some d ∧ t < d) :=
  ⟨by decide, by decide,
    C9_created_at_run_time [⟨1, "a", true, some 1⟩] [] [] [] 5 _
      (by decide) (by decide)⟩

/-- C5 (code bug): the claim — a second Consent Backfill run with unchanged
legacy sources and the table as left by the first run stages and applies zero
updates — fails.  Rules 1 and 2 mutate *different in-memory copies* of the
same row, so a staged value from one rule leaves the other copy untouched;
on the next run the other rule sees a consent mismatch and stages again.
At this input the first run sets consent to `true` (rule 1; rule 2 sees its
own unmodified phone copy still matching), and the second run flips it back
to `false` via rule 2 — the backfill oscillates instead of reaching a fixed
point. -/
theorem C5_second_run_not_noop :
    runBackfill [⟨1, some "e", some "p", false, some 10⟩]
        [⟨1, "e", true, some 20⟩] [⟨1, "p", false, some 30⟩] [] =
      Except.ok [⟨1, some "e", some "p", true, some 10⟩] ∧
    runBackfill [⟨1, some "e", some "p", true, some 10⟩]
        [⟨1, "e", true, some 20⟩] [⟨1, "p", false, some 30⟩] [] =
      Except.ok [⟨1, some "e", some "p", false, some 10⟩] := ⟨rfl, rfl⟩

/-- C3 (counterexample): the claim — any consent change implies a matching
legacy record strictly newer than the Identity — fails via the merge rule,
which picks `max` by timestamp without requiring strict newness: here the
Identity (created at 10) has consent false; its matching subscriber (at 5)
and SMS record (at 3) are both *older*, yet the merge stages the
subscriber's consent `true`. -/
theorem C3_merge_without_newer :
    runBackfill [⟨1, some "e", some "p", false, some 10⟩]
        [⟨1, "e", true, some 5⟩] [⟨1, "p", true, some 3⟩]
        [⟨1, some "e", some "p", some 1⟩] =
      Except.ok [⟨1, some "e", some "p", true, some 10⟩] ∧
    strictlyNewer (some 5) (some 10) = false ∧
    strictlyNewer (some 3) (some 10) = false := ⟨rfl, rfl, rfl⟩

/-- C7: in Consent Backfill, a missing `created_at` on either side of the
strictly-newer comparison of the email-match and phone-match rules makes that
side "not newer": the record is skipped, no update is staged, and — the step
functions being total — no error is raised. -/
theorem C7_missing_timestamp_skips (st : BFState) (s : Subscriber)
    (sm : SubscriberSMS) :
    (s.create_date = none → bfStep1 st s = st) ∧
    (∀ u, bfGetE st.edict s.email = some u → u.create_date = none →
      bfStep1 st s = st) ∧
    (sm.create_date = none → bfStep2 st sm = st) ∧
    (∀ u, bfGetP st.pdict sm.phone = some u → u.create_date = none →
      bfStep2 st sm = st) := by
  refine ⟨?_, ?_, ?_, ?_⟩
  · intro h
    unfold bfStep1
    cases hget : bfGetE st.edict s.email with
    | none => rfl
    | some u =>
      dsimp only
      rw [if_neg (by rw [h]; simp [strictlyNewer])]
  · intro u hget h
    unfold bfStep1
    rw [hget]
    dsimp only
    rw [if_neg (by rw [h]; cases s.create_date <;> simp [strictlyNewer])]
  · intro h
    unfold bfStep2
    cases hget : bfGetP st.pdict sm.phone with
    | none => rfl
    | some u =>
      dsimp only
      rw [if_neg (by rw [h]; simp [strictlyNewer])]
  · intro u hget h
    unfold bfStep2
    rw [hget]
    dsimp only
    rw [if_neg (by rw [h]; cases sm.create_date <;> simp [strictlyNewer])]

theorem C7_missing_timestamp_skips_witness :
    ((⟨1, "e", true, none⟩ : Subscriber).create_date = none ∧
      bfStep1 (bfInit [⟨1, some "e", none, false, some 4⟩]) ⟨1, "e", true, none⟩ =
        bfInit [⟨1, some "e", none, false, some 4⟩]) ∧
    (bfGetE (bfInit [⟨1, some "e", none, false, none⟩]).edict "e" =
        some ⟨1, some "e", none, false, none⟩ ∧
      bfStep1 (bfInit [⟨1, some "e", none, false, none⟩]) ⟨1, "e", true, some 9⟩ =
        bfInit [⟨1, some "e", none, false, none⟩]) := by
  constructor
  · exact ⟨rfl, (C7_missing_timestamp_skips _ ⟨1, "e", true, none⟩
      ⟨1, "p", true, none⟩).1 rfl⟩
  · exact ⟨by decide, (C7_missing_timestamp_skips _ ⟨1, "e", true, some 9⟩
      ⟨1, "p", true, none⟩).2.1 ⟨1, some "e", none, false, none⟩ (by decide) rfl⟩

/-- C10: in the merge case, when the two comparison keys are equal (equal
timestamps, or both sides having fallen back to the Identity's own
`create_date`), Python's `max` keeps the first tuple, which is the
EmailSubscription's: the email side wins ties.  (The keys must actually be
comparable — `isSome` — since comparing two `None`s would raise.) -/
theorem C10_email_wins_ties (s : Subscriber) (sm : SubscriberSMS) (u : User)
    (heq : keyOf s.create_date u = keyOf sm.create_date u)
    (hdef : (keyOf s.create_date u).isSome = true) :
    mergePick s sm u = some s.gdpr_consent := by
  obtain ⟨t, ht⟩ := Option.isSome_iff_exists.mp hdef
  unfold mergePick pyGt
  rw [← heq, ht]
  simp

theorem C10_email_wins_ties_witness :
    (keyOf (some 7) ⟨1, some "e", some "p", false, some 1⟩ =
      keyOf (some 7) ⟨1, some "e", some "p", false, some 1⟩) ∧
    ((keyOf (some 7) ⟨1, some "e", some "p", false, some 1⟩).isSome = true) ∧
    mergePick ⟨1, "e", true, some 7⟩ ⟨1, "p", false, some 7⟩
        ⟨1, some "e", some "p", false, some 1⟩ = some true :=
  ⟨rfl, by decide,
    C10_email_wins_ties ⟨1, "e", true, some 7⟩ ⟨1, "p", false, some 7⟩
      ⟨1, some "e", some "p", false, some 1⟩ rfl (by decide)⟩

/-- C8: model resolution consults the `GDPR_MODELS_APP_LABEL` override first
when set (succeeding or failing on that app's lookup alone); without it, a
logical name matching zero registered models or models in more than one app
always produces an error, never an empty result; and `handle` resolves all
four names before doing anything, so a resolution error means the run
produces no state and no file effect at all. -/
theorem C8_resolution_loud_and_first (reg : Registry) (modelName label : String)
    (hready : reg.ready = true) :
    ((∀ m, appsGetModel reg label modelName = some m →
        getModelByName reg (some label) modelName = .ok m) ∧
      (appsGetModel reg label modelName = none →
        ∃ e, getModelByName reg (some label) modelName = .error e)) ∧
    ((reg.installed.filter (fun m => m.name == modelName)).length ≠ 1 →
      ∃ e, getModelByName reg none modelName = .error e) ∧
    (∀ appLabelSetting e subs smss clients users0 files0 now,
      resolveModels reg appLabelSetting = .error e →
      handleBuilder reg appLabelSetting subs smss clients users0 files0 now =
        .error e) := by
  have hnotready : (!reg.ready) = false := by rw [hready]; rfl
  refine ⟨⟨?_, ?_⟩, ?_, ?_⟩
  · intro m hm
    unfold getModelByName
    rw [hnotready]
    simp only [Bool.false_eq_true, if_false, hm]
  · intro hm
    unfold getModelByName
    rw [hnotready]
    simp only [Bool.false_eq_true, if_false, hm]
    exact ⟨_, rfl⟩
  · intro hlen
    unfold getModelByName
    rw [hnotready]
    simp only [Bool.false_eq_true, if_false]
    cases hf : reg.installed.filter (fun m => m.name == modelName) with
    | nil => exact ⟨_, rfl⟩
    | cons a t =>
      cases t with
      | nil => exact absurd (by rw [hf]; rfl) hlen
      | cons b t2 => exact ⟨_, rfl⟩
  · intro appLabelSetting e subs smss clients users0 files0 now hres
    unfold handleBuilder
    rw [hres]
    rfl

theorem C8_resolution_witness :
    ((⟨true, [⟨"app", "User"⟩]⟩ : Registry).ready = true) ∧
    (getModelByName ⟨true, [⟨"app", "User"⟩]⟩ (some "app") "User" =
      .ok ⟨"app", "User"⟩) ∧
    (∃ e, getModelByName ⟨true, [⟨"other", "User"⟩, ⟨"app", "User"⟩]⟩ none "User" =
      .error e) ∧
    (handleBuilder ⟨true, []⟩ none [] [] [] [] ⟨none, none, none⟩ 0 =
      .error "Model not found in any installed app: Subscriber") := by
  refine ⟨rfl, ?_, ?_, ?_⟩
  · exact (C8_resolution_loud_and_first ⟨true, [⟨"app", "User"⟩]⟩ "User" "app"
      rfl).1.1 ⟨"app", "User"⟩ (by decide)
  · exact (C8_resolution_loud_and_first ⟨true, [⟨"other", "User"⟩, ⟨"app", "User"⟩]⟩
      "User" "x" rfl).2.1 (by decide)
  · exact (C8_resolution_loud_and_first ⟨true, []⟩ "Subscriber" "x" rfl).2.2
      none _ [] [] [] [] ⟨none, none, none⟩ 0 rfl


theorem dedupKeepLast_subset (key : User → Option String) (l : List User) :
    ∀ v ∈ dedupKeepLast key l, v ∈ l := by
  induction l with
  | nil => intro v hv; simp [dedupKeepLast] at hv
  | cons u rest ih =>
    intro v hv
    unfold dedupKeepLast at hv
    split at hv
    · exact List.mem_cons_of_mem u (ih v hv)
    · rcases List.mem_cons.mp hv with rfl | hv
      · exact List.mem_cons_self v rest
      · exact List.mem_cons_of_mem u (ih v hv)

theorem emailDict_shadow (users : List User) :
    ∀ v ∈ emailDict users, RowShadow users v := by
  intro v hv
  have hv2 := dedupKeepLast_subset _ _ v hv
  exact ⟨v, List.mem_of_mem_filter hv2, rfl, rfl, rfl, rfl⟩

theorem phoneDict_shadow (users : List User) :
    ∀ v ∈ phoneDict users, RowShadow users v := by
  intro v hv
  have hv2 := dedupKeepLast_subset _ _ v hv
  exact ⟨v, List.mem_of_mem_filter hv2, rfl, rfl, rfl, rfl⟩

theorem setConsentE_shadow {users l : List User} {e : Option String} {c : Bool}
    (h : ∀ v ∈ l, RowShadow users v) :
    ∀ v ∈ setConsentE l e c, RowShadow users v := by
  intro v hv
  obtain ⟨w, hw, hwv⟩ := List.mem_map.mp hv
  obtain ⟨x, hx, h1, h2, h3, h4⟩ := h w hw
  refine ⟨x, hx, ?_⟩
  rw [← hwv]
  split <;> exact ⟨h1, h2, h3, h4⟩

theorem setConsentP_shadow {users l : List User} {p : Option String} {c : Bool}
    (h : ∀ v ∈ l, RowShadow users v) :
    ∀ v ∈ setConsentP l p c, RowShadow users v := by
  intro v hv
  obtain ⟨w, hw, hwv⟩ := List.mem_map.mp hv
  obtain ⟨x, hx, h1, h2, h3, h4⟩ := h w hw
  refine ⟨x, hx, ?_⟩
  rw [← hwv]
  split <;> exact ⟨h1, h2, h3, h4⟩

theorem bfGetE_some {l : List User} {e : String} {u : User}
    (h : bfGetE l e = some u) : u ∈ l ∧ u.email = some e := by
  unfold bfGetE at h
  refine ⟨List.mem_of_find?_eq_some h, ?_⟩
  have := List.find?_some h
  simpa using this

theorem bfGetP_some {l : List User} {p : String} {u : User}
    (h : bfGetP l p = some u) : u ∈ l ∧ u.phone = some p := by
  unfold bfGetP at h
  refine ⟨List.mem_of_find?_eq_some h, ?_⟩
  have := List.find?_some h
  simpa using this

theorem bfStep1_inv {users : List User} {subs : List Subscriber}
    {smss : List SubscriberSMS} {st : BFState} {s : Subscriber}
    (hd : DictsInv users st) (hl : LogsInv users subs smss st) (hs : s ∈ subs) :
    DictsInv users (bfStep1 st s) ∧ LogsInv users subs smss (bfStep1 st s) := by
  unfold bfStep1
  cases hget : bfGetE st.edict s.email with
  | none => exact ⟨hd, hl⟩
  | some u =>
    dsimp only
    split
    · split
      · refine ⟨⟨setConsentE_shadow hd.1, hd.2⟩, ?_, hl.2⟩
        intro i hi
        rcases List.mem_append.mp hi with hi | hi
        · exact hl.1 i hi
        · obtain ⟨w, hw, h1, h2, _, h4⟩ := hd.1 u (bfGetE_some hget).1
          have hue : u.email = some s.email := (bfGetE_some hget).2
          have hieq : i = u.id := by simpa using hi
          refine ⟨s, hs, w, hw, by rw [h1, hieq], by rw [h2, hue], ?_⟩
          rw [h4]; assumption
      · exact ⟨hd, hl⟩
    · exact ⟨hd, hl⟩

theorem bfStep2_inv {users : List User} {subs : List Subscriber}
    {smss : List SubscriberSMS} {st : BFState} {sm : SubscriberSMS}
    (hd : DictsInv users st) (hl : LogsInv users subs smss st) (hm : sm ∈ smss) :
    DictsInv users (bfStep2 st sm) ∧ LogsInv users subs smss (bfStep2 st sm) := by
  unfold bfStep2
  cases hget : bfGetP st.pdict sm.phone with
  | none => exact ⟨hd, hl⟩
  | some u =>
    dsimp only
    split
    · split
      · refine ⟨⟨hd.1, setConsentP_shadow hd.2⟩, hl.1, ?_⟩
        intro i hi
        rcases List.mem_append.mp hi with hi | hi
        · exact hl.2 i hi
        · obtain ⟨w, hw, h1, _, h3, h4⟩ := hd.2 u (bfGetP_some hget).1
          have hup : u.phone = some sm.phone := (bfGetP_some hget).2
          have hieq : i = u.id := by simpa using hi
          refine ⟨sm, hm, w, hw, by rw [h1, hieq], by rw [h3, hup], ?_⟩
          rw [h4]; assumption
      · exact ⟨hd, hl⟩
    · exact ⟨hd, hl⟩

theorem bfStep3_inv {users : List User} {subs : List Subscriber}
    {smss : List SubscriberSMS} {clients : List Client} {st st' : BFState}
    {u : User} (hd : DictsInv users st) (hl : LogsInv users subs smss st)
    (h : bfStep3 subs smss clients st u = .ok st') :
    DictsInv users st' ∧ LogsInv users subs smss st' ∧
    (∀ i ∈ st'.log3, i ∈ st.log3 ∨ True) := by
  unfold bfStep3 at h
  split at h
  · cases h; exact ⟨hd, hl, fun i _ => Or.inr trivial⟩
  · split at h
    · cases h; exact ⟨hd, hl, fun i _ => Or.inr trivial⟩
    · split at h
      · cases h; exact ⟨hd, hl, fun i _ => Or.inr trivial⟩
      · split at h
        · split at h
          · cases h
          · split at h
            · cases h
              exact ⟨⟨setConsentE_shadow hd.1, hd.2⟩, ⟨hl.1, hl.2⟩,
                fun i _ => Or.inr trivial⟩
            · cases h; exact ⟨hd, hl, fun i _ => Or.inr trivial⟩
        · cases h; exact ⟨hd, hl, fun i _ => Or.inr trivial⟩

theorem foldlM_except_inv {α : Type} (P : BFState → Prop)
    (f : BFState → α → Except String BFState)
    (hf : ∀ st a st', P st → f st a = .ok st' → P st') :
    ∀ (l : List α) (st st' : BFState), P st → l.foldlM f st = .ok st' → P st' := by
  intro l
  induction l with
  | nil =>
    intro st st' h heq
    simp only [List.foldlM_nil] at heq
    cases heq
    exact h
  | cons a t ih =>
    intro st st' h heq
    rw [List.foldlM_cons] at heq
    cases hfa : f st a with
    | error e =>
      rw [hfa] at heq
      exact absurd
        (show (Except.error e : Except String BFState) = Except.ok st' from heq)
        (by simp)
    | ok s1 =>
      rw [hfa] at heq
      exact ih s1 st' (hf st a s1 h hfa) heq

theorem bfRun_inv (users : List User) (subs : List Subscriber)
    (smss : List SubscriberSMS) (clients : List Client) (st3 : BFState)
    (h : bfRun users subs smss clients = Except.ok st3) :
    DictsInv users st3 ∧ LogsInv users subs smss st3 := by
  have h0 : DictsInv users (bfInit users) ∧ LogsInv users subs smss (bfInit users) := by
    refine ⟨⟨emailDict_shadow users, phoneDict_shadow users⟩, ?_, ?_⟩ <;>
      intro i hi <;> simp [bfInit] at hi
  have h1 := List.foldlRecOn subs bfStep1 _ h0
    (fun st (hst : DictsInv users st ∧ LogsInv users subs smss st) s hs =>
      bfStep1_inv hst.1 hst.2 hs)
  have h2 := List.foldlRecOn smss bfStep2 _ h1
    (fun st (hst : DictsInv users st ∧ LogsInv users subs smss st) sm hm =>
      bfStep2_inv hst.1 hst.2 hm)
  exact foldlM_except_inv
    (fun st => DictsInv users st ∧ LogsInv users subs smss st)
    (bfStep3 subs smss clients)
    (fun st a st' (hst : DictsInv users st ∧ LogsInv users subs smss st) heq =>
      ⟨(bfStep3_inv hst.1 hst.2 heq).1, (bfStep3_inv hst.1 hst.2 heq).2.1⟩)
    (bfPhases12 users subs smss).edict _ st3 h2 h

theorem appliedConsent_cases {st : BFState} {i : Nat} {c : Bool}
    (h : appliedConsent st i = some c) :
    i ∈ st.log3 ∨ i ∈ st.log1 ∨ i ∈ st.log2 := by
  unfold appliedConsent at h
  split at h
  · rename_i hmem
    rcases hmem with hmem | hmem
    · exact Or.inl hmem
    · exact Or.inr (Or.inl hmem)
  · split at h
    · rename_i hmem
      exact Or.inr (Or.inr hmem)
    · simp at h

theorem eq_of_id_nodup {users : List User}
    (h : (users.map (fun u => u.id)).Nodup) {u w : User}
    (hu : u ∈ users) (hw : w ∈ users) (hid : u.id = w.id) : u = w :=
  List.inj_on_of_nodup_map h hu hw hid

/-- C3 (amended): whenever Consent Backfill changes an Identity's consent,
either a matching legacy record (EmailSubscription by email, or
PhoneSubscription by phone) is strictly newer than the Identity's
`create_date`, or the Identity was staged by the merge rule — which compares
the two legacy records against each other only, imposing no strictly-newer
requirement against the Identity.  Ids are assumed unique (they are database
primary keys). -/
theorem C3_change_needs_newer_or_merge (users : List User)
    (subs : List Subscriber) (smss : List SubscriberSMS) (clients : List Client)
    (st3 : BFState) (hnodup : (users.map (fun u => u.id)).Nodup)
    (hrun : bfRun users subs smss clients = Except.ok st3)
    (u : User) (hu : u ∈ users) (v : User) (hv : v ∈ applyUpdates users st3)
    (hid : v.id = u.id) (hch : v.gdpr_consent ≠ u.gdpr_consent) :
    (∃ s ∈ subs, u.email = some s.email ∧
      strictlyNewer s.create_date u.create_date = true) ∨
    (∃ m ∈ smss, u.phone = some m.phone ∧
      strictlyNewer m.create_date u.create_date = true) ∨
    u.id ∈ st3.log3 := by
  obtain ⟨w, hw, hwv⟩ := List.mem_map.mp hv
  have hwid : w.id = v.id := by
    rw [← hwv]
    cases appliedConsent st3 w.id <;> rfl
  have hweq : w = u := eq_of_id_nodup hnodup hw hu (by rw [hwid, hid])
  have hwv2 : (match appliedConsent st3 u.id with
      | some c => { u with gdpr_consent := c }
      | none => u) = v := by rw [← hweq]; exact hwv
  cases happ : appliedConsent st3 u.id with
  | none =>
    rw [happ] at hwv2
    simp only at hwv2
    exact absurd (by rw [← hwv2]) hch
  | some c =>
    obtain ⟨_, hL⟩ := bfRun_inv users subs smss clients st3 hrun
    rcases appliedConsent_cases happ with h3 | h1 | h2
    · exact Or.inr (Or.inr h3)
    · obtain ⟨s, hs, x, hx, hxid, hxe, hxn⟩ := hL.1 u.id h1
      have hxeq : x = u := eq_of_id_nodup hnodup hx hu hxid
      rw [hxeq] at hxe hxn
      exact Or.inl ⟨s, hs, hxe, hxn⟩
    · obtain ⟨m, hm, x, hx, hxid, hxp, hxn⟩ := hL.2 u.id h2
      have hxeq : x = u := eq_of_id_nodup hnodup hx hu hxid
      rw [hxeq] at hxp hxn
      exact Or.inr (Or.inl ⟨m, hm, hxp, hxn⟩)

theorem C3_change_needs_newer_or_merge_witness :
    (([⟨1, some "e", none, false, some 10⟩] : List User).map
        (fun u => u.id)).Nodup ∧
    bfRun [⟨1, some "e", none, false, some 10⟩] [⟨1, "e", true, some 20⟩] [] [] =
      Except.ok ⟨[⟨1, some "e", none, true, some 10⟩], [], [1], [], []⟩ ∧
    ((∃ s ∈ ([⟨1, "e", true, some 20⟩] : List Subscriber),
        (⟨1, some "e", none, false, some 10⟩ : User).email = some s.email ∧
        strictlyNewer s.create_date
          (⟨1, some "e", none, false, some 10⟩ : User).create_date = true) ∨
      (∃ m ∈ ([] : List SubscriberSMS),
        (⟨1, some "e", none, false, some 10⟩ : User).phone = some m.phone ∧
        strictlyNewer m.create_date
          (⟨1, some "e", none, false, some 10⟩ : User).create_date = true) ∨
      (⟨1, some "e", none, false, some 10⟩ : User).id ∈
        (⟨[⟨1, some "e", none, true, some 10⟩], [], [1], [], []⟩ : BFState).log3) :=
  ⟨by decide, rfl,
    C3_change_needs_newer_or_merge
      [⟨1, some "e", none, false, some 10⟩] [⟨1, "e", true, some 20⟩] [] []
      ⟨[⟨1, some "e", none, true, some 10⟩], [], [1], [], []⟩
      (by decide) rfl
      ⟨1, some "e", none, false, some 10⟩ (by decide)
      ⟨1, some "e", none, true, some 10⟩ (by decide)
      (by decide) (by decide)⟩

end Migration
